import Mathlib

/-!
Verification of the Risor runtime core against its specification.

The development shallowly embeds the relevant Go sources:
* `object` — the object model (type tags, `CompareTypes`, `HashKey`,
  equality and hashing) from the `object` package.
* `conc` — the `Service` host object and the `runFunc` builtin from
  `examples/go/conc/main.go`.
* `cli` — `getOutput` and `mountFromSpec` from the command-line front end.
* `repl` — the REPL state machine and the incremental-compile `execute`
  from `repl/repl.go`.

Go machine integers are modelled as `Int`/`Nat` (no operation here can
overflow an `int64`), Go slices/maps as lists or functions, and fallible
Go code as `Option`/`Except`.
-/

namespace Risor

namespace object

/-- Type of an object as a string (Go: `type Type string`).  `Type` is a
Lean keyword, so the embedding names it `Ty`. -/
abbrev Ty := String

-- Type constants (the closed enumeration from the object package).
def BOOL : Ty := "bool"
def BUFFER : Ty := "buffer"
def BUILTIN : Ty := "builtin"
def BYTE_SLICE : Ty := "byte_slice"
def BYTE : Ty := "byte"
def CELL : Ty := "cell"
def COLOR : Ty := "color"
def COMPLEX : Ty := "complex"
def ERROR : Ty := "error"
def FLOAT : Ty := "float"
def FUNCTION : Ty := "function"
def INT : Ty := "int"
def LIST : Ty := "list"
def MAP : Ty := "map"
def NIL : Ty := "nil"
def STRING : Ty := "string"

/-- Modelled from the spec: the concrete `Value` variants (spec §3) are not
part of the provided sources, which declare only the `Object` interface.
This inductive realises a representative closed subset of the enumerated
variants: the hashable scalars (bool, int, float, string, byte), the `nil`
singleton, errors, a container (list), functions and builtins.  Float
payloads are modelled with rationals so that payload equality is decidable.
-/
inductive Value where
  | bool (b : Bool)
  | int (n : Int)
  | float (q : Rat)
  | str (s : String)
  | byte (n : Nat)
  | nil
  | err (msg : String)
  | list (items : List Value)
  | function (id : Nat)
  | builtin (name : String)

mutual

/-- Modelled from the spec: `Equals(other)` is a total function over any two
Values of any types; a mismatch of types yields `false`, never an error, and
matching types compare payloads (element-wise for lists).  The concrete
per-variant implementations are not in the provided sources. -/
def eqValue : Value → Value → Bool
  | .bool a, .bool b => a == b
  | .int a, .int b => a == b
  | .float a, .float b => a == b
  | .str a, .str b => a == b
  | .byte a, .byte b => a == b
  | .nil, .nil => true
  | .err a, .err b => a == b
  | .list a, .list b => eqValueList a b
  | .function a, .function b => a == b
  | .builtin a, .builtin b => a == b
  | _, _ => false

/-- Element-wise equality of two lists of Values. -/
def eqValueList : List Value → List Value → Bool
  | [], [] => true
  | a :: as, b :: bs => eqValue a b && eqValueList as bs
  | _, _ => false

end

/-- `Equals` returns the True Value or the False Value (never an error, and
never a host exception): it wraps `eqValue` in a boolean Value. -/
def Equals (a b : Value) : Value := Value.bool (eqValue a b)

/-- `HashKey` from the object package: the type tag plus one populated
discriminant.  The Go `float64`/`int64` discriminants are modelled as
`Rat`/`Int`. -/
structure HashKey where
  type : Ty
  FltValue : Rat
  IntValue : Int
  StrValue : String
deriving DecidableEq

/-- Modelled from the spec: `HashKey()` is defined only for variants declared
Hashable (bool, int, float, string, byte); the per-variant implementations are
not in the provided sources.  `none` marks a non-Hashable variant. -/
def hashKey? : Value → Option HashKey
  | .bool b => some ⟨BOOL, 0, if b then 1 else 0, ""⟩
  | .int n => some ⟨INT, 0, n, ""⟩
  | .float q => some ⟨FLOAT, q, 0, ""⟩
  | .str s => some ⟨STRING, 0, 0, s⟩
  | .byte n => some ⟨BYTE, 0, n, ""⟩
  | _ => none

/-- `Type()` of each value: pure and constant for the value's lifetime. -/
def typeOf : Value → Ty
  | .bool _ => BOOL
  | .int _ => INT
  | .float _ => FLOAT
  | .str _ => STRING
  | .byte _ => BYTE
  | .nil => NIL
  | .err _ => ERROR
  | .list _ => LIST
  | .function _ => FUNCTION
  | .builtin _ => BUILTIN

/-- `CompareTypes` from the object package: compares the two values' type
tags with Go's lexical string order. -/
def CompareTypes (a b : Value) : Int :=
  let aType := typeOf a
  let bType := typeOf b
  if aType ≠ bType then
    if aType < bType then -1 else 1
  else 0

/-- `CompareTypes` unfolded to its branching form. -/
theorem compareTypes_def (a b : Value) :
    CompareTypes a b =
      (if typeOf a ≠ typeOf b then if typeOf a < typeOf b then -1 else 1 else 0) := rfl

/-- `CompareTypes` returns -1 exactly when the first tag is lexically
smaller. -/
theorem compareTypes_eq_neg_one (a b : Value) :
    CompareTypes a b = -1 ↔ typeOf a < typeOf b := by
  rw [compareTypes_def]
  split_ifs with h1 h2
  · exact iff_of_true rfl h2
  · exact iff_of_false (by decide) h2
  · push_neg at h1
    exact iff_of_false (by decide) (by rw [h1]; exact lt_irrefl _)

/-- `CompareTypes` returns 1 exactly when the first tag is lexically
greater. -/
theorem compareTypes_eq_one (a b : Value) :
    CompareTypes a b = 1 ↔ typeOf b < typeOf a := by
  rw [compareTypes_def]
  split_ifs with h1 h2
  · exact iff_of_false (by decide) (not_lt_of_gt h2)
  · exact iff_of_true rfl (h1.lt_or_lt.resolve_left h2)
  · push_neg at h1
    exact iff_of_false (by decide) (by rw [h1]; exact lt_irrefl _)

/-- `CompareTypes` returns 0 exactly on equal tags. -/
theorem compareTypes_eq_zero (a b : Value) :
    CompareTypes a b = 0 ↔ typeOf a = typeOf b := by
  rw [compareTypes_def]
  split_ifs with h1 h2
  · exact iff_of_false (by decide) h1
  · exact iff_of_false (by decide) h1
  · push_neg at h1
    exact iff_of_true rfl h1

mutual

/-- `eqValue` is reflexive on every variant. -/
theorem eqValue_refl : ∀ a : Value, eqValue a a = true
  | .bool b => by simp [eqValue]
  | .int n => by simp [eqValue]
  | .float q => by simp [eqValue]
  | .str s => by simp [eqValue]
  | .byte n => by simp [eqValue]
  | .nil => rfl
  | .err m => by simp [eqValue]
  | .list xs => by simpa [eqValue] using eqValueList_refl xs
  | .function i => by simp [eqValue]
  | .builtin n => by simp [eqValue]

/-- `eqValueList` is reflexive. -/
theorem eqValueList_refl : ∀ l : List Value, eqValueList l l = true
  | [] => rfl
  | x :: xs => by
      simp only [eqValueList, Bool.and_eq_true]
      exact ⟨eqValue_refl x, eqValueList_refl xs⟩

end

/-- **C1**: `CompareTypes(a,b)` is a strict total order fallback consistent
with the lexical string order of the type tags: it returns -1 when
`a.Type()` is lexically less than `b.Type()`, 1 when lexically greater, 0
when the tags are equal; it is antisymmetric (`CompareTypes(a,b) =
-CompareTypes(b,a)`), the induced relation is transitive, and for distinct
tags exactly one of the results -1 and 1 obtains. -/
theorem C1_CompareTypes_strict_total_order :
    (∀ a b : Value, typeOf a < typeOf b → CompareTypes a b = -1) ∧
    (∀ a b : Value, typeOf b < typeOf a → CompareTypes a b = 1) ∧
    (∀ a b : Value, typeOf a = typeOf b → CompareTypes a b = 0) ∧
    (∀ a b : Value, CompareTypes a b = -CompareTypes b a) ∧
    (∀ a b c : Value,
      CompareTypes a b = -1 → CompareTypes b c = -1 → CompareTypes a c = -1) ∧
    (∀ a b : Value, typeOf a ≠ typeOf b →
      Xor' (CompareTypes a b = -1) (CompareTypes a b = 1)) := by
  refine ⟨fun a b h => (compareTypes_eq_neg_one a b).mpr h,
    fun a b h => (compareTypes_eq_one a b).mpr h,
    fun a b h => (compareTypes_eq_zero a b).mpr h, fun a b => ?_, ?_, ?_⟩
  · rcases lt_trichotomy (typeOf a) (typeOf b) with h | h | h
    · rw [(compareTypes_eq_neg_one a b).mpr h, (compareTypes_eq_one b a).mpr h]
    · rw [(compareTypes_eq_zero a b).mpr h, (compareTypes_eq_zero b a).mpr h.symm]
      decide
    · rw [(compareTypes_eq_one a b).mpr h, (compareTypes_eq_neg_one b a).mpr h]
      decide
  · intro a b c hab hbc
    exact (compareTypes_eq_neg_one a c).mpr
      (lt_trans ((compareTypes_eq_neg_one a b).mp hab)
        ((compareTypes_eq_neg_one b c).mp hbc))
  · intro a b h
    rcases h.lt_or_lt with h' | h'
    · exact Or.inl ⟨(compareTypes_eq_neg_one a b).mpr h',
        by rw [(compareTypes_eq_neg_one a b).mpr h']; decide⟩
    · exact Or.inr ⟨(compareTypes_eq_one a b).mpr h',
        by rw [(compareTypes_eq_one a b).mpr h']; decide⟩

/-- Witness for C1 at concrete inputs: a Bool value and an Int value have
distinct, lexically ordered tags. -/
theorem C1_witness :
    CompareTypes (Value.bool true) (Value.int 7) = -1 ∧
    CompareTypes (Value.int 7) (Value.bool true) = 1 := by
  have hlt : typeOf (Value.bool true) < typeOf (Value.int 7) := by
    rw [String.lt_iff_toList_lt]; decide
  exact ⟨C1_CompareTypes_strict_total_order.1 _ _ hlt,
    C1_CompareTypes_strict_total_order.2.1 _ _ hlt⟩

/-- **C5**: `Equals` is reflexive and total over all Value variants: every
value equals itself with the true Value as result, any two values of any
two variants produce a boolean Value, and a mismatch of type tags yields
the false Value — never an error and never a host exception. -/
theorem C5_Equals_reflexive_total :
    (∀ a : Value, Equals a a = Value.bool true) ∧
    (∀ a b : Value, ∃ r : Bool, Equals a b = Value.bool r) ∧
    (∀ a b : Value, typeOf a ≠ typeOf b → Equals a b = Value.bool false) := by
  refine ⟨fun a => by simp [Equals, eqValue_refl], fun a b => ⟨eqValue a b, rfl⟩, ?_⟩
  intro a b h
  cases a <;> cases b <;> simp_all [Equals, eqValue, typeOf, BOOL, INT, FLOAT,
    STRING, BYTE, NIL, ERROR, LIST, FUNCTION, BUILTIN]

/-- Witness for C5 at concrete inputs: an Int value and a String value have
mismatched tags and compare to the false Value. -/
theorem C5_witness :
    Equals (Value.int 3) (Value.str "x") = Value.bool false :=
  C5_Equals_reflexive_total.2.2 (Value.int 3) (Value.str "x") (by decide)

/-- **C4**: Equals-consistency of hashing — Hashable values that are
`Equals`-equal produce identical HashKeys, and two HashKeys whose `Type`
fields differ are never equal. -/
theorem C4_hash_consistent_with_equals :
    (∀ a b : Value, ∀ ka kb : HashKey, hashKey? a = some ka →
      hashKey? b = some kb → Equals a b = Value.bool true → ka = kb) ∧
    (∀ k1 k2 : HashKey, k1.type ≠ k2.type → k1 ≠ k2) := by
  constructor
  · intro a b ka kb ha hb heq
    have heq' : eqValue a b = true := by simpa [Equals] using heq
    cases a <;> cases b <;> simp_all [hashKey?, eqValue]
  · intro k1 k2 h hk
    exact h (by rw [hk])

/-- Witness for C4 at concrete inputs: two equal Int values share a HashKey,
and an int-tagged HashKey never equals a bool-tagged one. -/
theorem C4_witness :
    (⟨INT, 0, 5, ""⟩ : HashKey) = ⟨INT, 0, 5, ""⟩ ∧
    (⟨INT, 0, 0, ""⟩ : HashKey) ≠ ⟨BOOL, 0, 0, ""⟩ :=
  ⟨C4_hash_consistent_with_equals.1 (Value.int 5) (Value.int 5) _ _ rfl rfl
      (by simp [Equals, eqValue]),
    C4_hash_consistent_with_equals.2 _ _ (by decide)⟩

/-- Modelled from the spec: the concrete iterator implementations are not in
the provided sources, which declare only the `Iterator` interface; spec §4.2
gives the state machine.  A slice-style iterator holds its items and a
cursor; `Next()` advances the cursor and reports the current object. -/
structure SliceIter where
  items : List Value
  pos : Nat

/-- `Next()`: advances the iterator and returns the current object and a
bool indicating whether the returned item is valid; past the end it returns
the zero value (Nil) and `false`, leaving the cursor in place. -/
def SliceIter.next (it : SliceIter) : Value × Bool × SliceIter :=
  if h : it.pos < it.items.length then
    (it.items.get ⟨it.pos, h⟩, true, { it with pos := it.pos + 1 })
  else
    (Value.nil, false, it)

/-- Call `Next()` a further `n` times, keeping only the final state. -/
def SliceIter.stepN (it : SliceIter) : Nat → SliceIter
  | 0 => it
  | n + 1 => SliceIter.stepN (it.next).2.2 n

/-- **C6**: iterator exhaustion is terminal — once `Next()` has returned
`hasMore = false`, every subsequent call (any number of further `Next()`
steps later) keeps returning the zero value and `false`. -/
theorem C6_iterator_exhaustion_terminal :
    ∀ it : SliceIter, (it.next).2.1 = false →
      ∀ n : Nat, ((SliceIter.stepN (it.next).2.2 n).next).1 = Value.nil ∧
        ((SliceIter.stepN (it.next).2.2 n).next).2.1 = false := by
  intro it h n
  have hc : ¬ it.pos < it.items.length := by
    intro hlt
    simp [SliceIter.next, hlt] at h
  have hnext : it.next = (Value.nil, false, it) := by
    simp [SliceIter.next, hc]
  rw [hnext]
  induction n with
  | zero => simp [SliceIter.stepN, hnext]
  | succ k ih => simpa [SliceIter.stepN, hnext] using ih

/-- Witness for C6 at a concrete input: the empty iterator is exhausted
immediately and stays exhausted two calls later. -/
theorem C6_witness :
    ((SliceIter.stepN ((⟨[], 0⟩ : SliceIter).next).2.2 2).next).1 = Value.nil ∧
    ((SliceIter.stepN ((⟨[], 0⟩ : SliceIter).next).2.2 2).next).2.1 = false :=
  C6_iterator_exhaustion_terminal ⟨[], 0⟩ rfl 2

end object

namespace conc

open object

/-- `Service` from examples/go/conc/main.go: name, running flag and
start/stop counters. -/
structure Service where
  name : String
  running : Bool
  startCount : Nat
  stopCount : Nat
deriving DecidableEq

/-- `Service.Start` from examples/go/conc/main.go: errors when already
running, otherwise marks the service running and bumps the start counter.
The Go `error` result is `Option String` (the message), paired with the
updated receiver. -/
def Service.Start (s : Service) : Option String × Service :=
  if s.running then
    (some ("service " ++ s.name ++ " already running"), s)
  else
    (none, { s with running := true, startCount := s.startCount + 1 })

/-- Modelled from the spec: the proxy bridge (spec §4.4, §8) is not in the
provided sources.  Calling the wrapped `Start() error` method through the
call-back capability with zero arguments marshals a nil host error to the
Nil Value and a non-nil host error to an Error Value carrying its message. -/
def proxyCallStart (s : Service) : Value × Service :=
  match s.Start with
  | (some msg, s2) => (Value.err msg, s2)
  | (none, s2) => (Value.nil, s2)

/-- A Go panic raised by the host runtime (never a language-level value). -/
inductive GoPanic where
  | indexOutOfRange (idx : Nat) (len : Nat)
deriving DecidableEq

/-- Go slice indexing `args[i]`: an out-of-range access is a host-level
runtime panic, not an error value. -/
def index (args : List Value) (i : Nat) : Except GoPanic Value :=
  match args.get? i with
  | some v => Except.ok v
  | none => Except.error (GoPanic.indexOutOfRange i args.length)

/-- The process-wide task table `taskKV`; Go map assignment overwrites, which
the list models by prepending (lookup finds the most recent binding). -/
abbrev TaskKV := List (String × Value)

/-- `runFunc` from examples/go/conc/main.go: asserts `args[0]` to a String
and `args[1]` to a Function, reporting assertion failures as Error Values;
on success it registers the function under the name in `taskKV` and returns
Nil.  The registered closure body only runs later and is not part of this
call. -/
def runFunc (taskKV : TaskKV) (args : List Value) :
    Except GoPanic (Value × TaskKV) := do
  let a0 ← index args 0
  match a0 with
  | Value.str name => do
      let a1 ← index args 1
      match a1 with
      | Value.function fid =>
          Except.ok (Value.nil, (name, Value.function fid) :: taskKV)
      | _ => Except.ok (Value.err "expected a function", taskKV)
  | _ => Except.ok (Value.err "expected a string", taskKV)

/-- **C3 counterexample**: the claim "no call to runFunc panics" fails at the
concrete input of an empty argument list — `args[0]` is a host-level
index-out-of-range panic, not an Error Value. -/
theorem C3_counterexample :
    runFunc [] [] = Except.error (GoPanic.indexOutOfRange 0 0) := rfl

/-- **C3 (amended)**: for every argument list with at least two elements,
`runFunc` never panics, and if `args[0]` is not a String or `args[1]` is not
a Function, it returns an Error Value to the caller. -/
theorem C3_runFunc_assertion_failures_are_error_values :
    ∀ (kv : TaskKV) (a0 a1 : Value) (rest : List Value),
      (∃ r, runFunc kv (a0 :: a1 :: rest) = Except.ok r) ∧
      ((typeOf a0 ≠ STRING ∨ typeOf a1 ≠ FUNCTION) →
        ∃ msg kv2,
          runFunc kv (a0 :: a1 :: rest) = Except.ok (Value.err msg, kv2)) := by
  intro kv a0 a1 rest
  constructor
  · cases a0 <;> cases a1 <;> exact ⟨_, rfl⟩
  · intro h
    cases a0 <;> cases a1 <;>
      first
        | exact ⟨_, _, rfl⟩
        | (rcases h with h | h <;> exact absurd rfl h)

/-- Witness for C3 (amended) at a concrete input: two Int arguments yield an
Error Value, not a panic. -/
theorem C3_witness :
    ∃ msg kv2,
      runFunc [] [Value.int 1, Value.int 2] = Except.ok (Value.err msg, kv2) :=
  (C3_runFunc_assertion_failures_are_error_values [] (Value.int 1)
    (Value.int 2) []).2 (Or.inl (by decide))

/-- **C7**: proxy round-trip for `Start() error` — the call through the
call-back capability returns Nil exactly when the service was not already
running (in which case it becomes running with its start counter bumped),
and otherwise returns an Error Value whose message names the service as
already running, leaving the service unchanged. -/
theorem C7_proxy_start_round_trip :
    ∀ s : Service,
      ((proxyCallStart s).1 = Value.nil ↔ s.running = false) ∧
      (s.running = false →
        proxyCallStart s =
          (Value.nil,
            { s with running := true, startCount := s.startCount + 1 })) ∧
      (s.running = true →
        proxyCallStart s =
          (Value.err ("service " ++ s.name ++ " already running"), s)) := by
  intro s
  cases hs : s.running <;> simp [proxyCallStart, Service.Start, hs]

/-- Witness for C7 at concrete inputs: starting a stopped service succeeds;
starting it again reports it as already running. -/
theorem C7_witness :
    proxyCallStart ⟨"db", false, 0, 0⟩ = (Value.nil, ⟨"db", true, 1, 0⟩) ∧
    proxyCallStart ⟨"db", true, 1, 0⟩ =
      (Value.err "service db already running", ⟨"db", true, 1, 0⟩) :=
  ⟨(C7_proxy_start_round_trip ⟨"db", false, 0, 0⟩).2.1 rfl,
    (C7_proxy_start_round_trip ⟨"db", true, 1, 0⟩).2.2 rfl⟩

end conc

namespace cli

open object

/-- Go `strings.Split` for a single-character separator (the CLI only splits
on `,` and `=`): splits at every occurrence; the result is never empty. -/
def splitOnChar (sep : Char) (s : String) : List String :=
  go s.data []
where
  /-- Walk the characters, accumulating the current field in reverse. -/
  go : List Char → List Char → List String
    | [], acc => [String.mk acc.reverse]
    | x :: xs, acc =>
        if x = sep then String.mk acc.reverse :: go xs []
        else go xs (x :: acc)

/-- Go `strings.SplitN(s, sep, 2)` for a single-character separator: splits
at the first occurrence only; a single element when the separator is
absent. -/
def splitN2 (sep : Char) (s : String) : List String :=
  go s.data []
where
  /-- Walk the characters until the first separator. -/
  go : List Char → List Char → List String
    | [], acc => [String.mk acc.reverse]
    | x :: xs, acc =>
        if x = sep then [String.mk acc.reverse, String.mk xs]
        else go xs (x :: acc)

/-- Go `strings.ToLower`: per-character lowercasing. -/
def toLowerGo (s : String) : String := String.mk (s.data.map Char.toLower)

/-- The parsed `k=v` items of a mount spec.  Go map assignment overwrites,
which the list models by prepending: `List.lookup` finds the most recent
binding first. -/
abbrev Items := List (String × String)

/-- The `k=v` item-parsing loop of `mountFromSpec`: every comma-separated
part must split into exactly two pieces at `=`, otherwise the whole spec is
rejected. -/
def parseItems (spec : String) : List String → Items → Except String Items
  | [], items => Except.ok items
  | part :: rest, items =>
      match splitN2 '=' part with
      | [k, v] => parseItems spec rest ((k, v) :: items)
      | _ =>
          Except.error
            ("invalid mount spec: " ++ spec ++ " (expected k=v format)")

/-- The s3 filesystem configuration assembled by the `s3` branch (the
external AWS client construction is represented by its configuration). -/
structure S3FS where
  bucket : String
  base : Option String
deriving DecidableEq

/-- `mountFromSpec` from the CLI: parses a comma-separated `k=v` spec,
requires non-empty `type`, `src` and `dst` keys, and supports only the `s3`
type.  The external AWS config/client construction inside the `s3` branch is
modelled as succeeding; everything else is the source's validation logic.
The Go `%q` verb is modelled as plain interpolation of the spec string. -/
def mountFromSpec (spec : String) : Except String (S3FS × String) :=
  match parseItems spec (splitOnChar ',' spec) [] with
  | Except.error e => Except.error e
  | Except.ok items =>
      match items.lookup "type" with
      | none =>
          Except.error ("invalid mount spec: " ++ spec ++ " (missing type)")
      | some typ =>
          if typ = "" then
            Except.error ("invalid mount spec: " ++ spec ++ " (missing type)")
          else
            match items.lookup "src" with
            | none =>
                Except.error
                  ("invalid mount spec: " ++ spec ++ " (missing src)")
            | some src =>
                if src = "" then
                  Except.error
                    ("invalid mount spec: " ++ spec ++ " (missing src)")
                else
                  match items.lookup "dst" with
                  | none =>
                      Except.error
                        ("invalid mount spec: " ++ spec ++ " (missing dst)")
                  | some dst =>
                      if dst = "" then
                        Except.error
                          ("invalid mount spec: " ++ spec ++ " (missing dst)")
                      else if typ = "s3" then
                        Except.ok (⟨src, baseOf items⟩, dst)
                      else Except.error ("unsupported source: " ++ src)
where
  /-- The optional base path: the `prefix` key when present and
  non-empty. -/
  baseOf (items : Items) : Option String :=
    match items.lookup "prefix" with
    | some p => if p ≠ "" then some p else none
    | none => none

/-- `splitN2.go` with no separator among the remaining characters yields a
single field. -/
theorem splitN2_go_no_sep (sep : Char) :
    ∀ (l acc : List Char), sep ∉ l →
      splitN2.go sep l acc = [String.mk (acc.reverse ++ l)] := by
  intro l
  induction l with
  | nil =>
      intro acc h
      simp [splitN2.go]
  | cons x xs ih =>
      intro acc h
      have hx : ¬ x = sep := fun hc => h (hc ▸ List.mem_cons_self x xs)
      have hxs : sep ∉ xs := fun hc => h (List.mem_cons_of_mem _ hc)
      simp [splitN2.go, hx, ih (x :: acc) hxs]

/-- `splitN2.go` with the separator present yields exactly two fields. -/
theorem splitN2_go_with_sep (sep : Char) :
    ∀ (l acc : List Char), sep ∈ l →
      ∃ k v, splitN2.go sep l acc = [k, v] := by
  intro l
  induction l with
  | nil =>
      intro acc h
      cases h
  | cons x xs ih =>
      intro acc h
      by_cases hx : x = sep
      · exact ⟨String.mk acc.reverse, String.mk xs, by simp [splitN2.go, hx]⟩
      · have hm : sep ∈ xs := by
          rcases List.mem_cons.mp h with h1 | h1
          · exact absurd h1.symm hx
          · exact h1
        obtain ⟨k, v, hkv⟩ := ih (x :: acc) hm
        exact ⟨k, v, by simp [splitN2.go, hx, hkv]⟩

/-- A part without `=` anywhere in the part list makes the item-parsing
loop fail with the k=v format error. -/
theorem parseItems_error_of_bad_part (spec : String) :
    ∀ (parts : List String) (items : Items),
      (∃ part ∈ parts, '=' ∉ part.data) →
      parseItems spec parts items =
        Except.error
          ("invalid mount spec: " ++ spec ++ " (expected k=v format)") := by
  intro parts
  induction parts with
  | nil =>
      rintro items ⟨part, hmem, _⟩
      cases hmem
  | cons p rest ih =>
      rintro items ⟨part, hmem, hno⟩
      by_cases hp : '=' ∈ p.data
      · obtain ⟨k, v, hkv⟩ := splitN2_go_with_sep '=' p.data [] hp
        have hrest : part ∈ rest := by
          rcases List.mem_cons.mp hmem with h1 | h1
          · exact absurd (h1 ▸ hp) hno
          · exact h1
        simp only [parseItems, splitN2, hkv]
        exact ih ((k, v) :: items) ⟨part, hrest, hno⟩
      · have hone : splitN2.go '=' p.data [] = [String.mk p.data] := by
          simpa using splitN2_go_no_sep '=' p.data [] hp
        simp [parseItems, splitN2, hone]

/-- Inversion: a successful mount requires a successful item parse, type
`s3`, and non-empty `src` and `dst` values. -/
theorem mountFromSpec_ok_inversion (spec : String) (fs : S3FS) (d : String)
    (h : mountFromSpec spec = Except.ok (fs, d)) :
    ∃ items, parseItems spec (splitOnChar ',' spec) [] = Except.ok items ∧
      items.lookup "type" = some "s3" ∧
      items.lookup "src" = some fs.bucket ∧ fs.bucket ≠ "" ∧
      items.lookup "dst" = some d ∧ d ≠ "" := by
  unfold mountFromSpec at h
  repeat' split at h
  all_goals try exact Except.noConfusion h
  rename_i x1 items hparse x2 typ htyp htne x3 src hsrc hsne x4 dst hdst hdne hs3
  injection h with h2
  rw [Prod.mk.injEq] at h2
  obtain ⟨hfs, hd⟩ := h2
  subst hfs
  subst hd
  subst hs3
  exact ⟨items, hparse, htyp, hsrc, hsne, hdst, hdne⟩

/-- The comparison `result == object.Nil` against the Nil singleton. -/
def isNil : Value → Bool
  | Value.nil => true
  | _ => false

/-- `getOutput` from the CLI: with an empty format it prints nothing for
Nil, else the JSON form when marshalling succeeds, else the plain text
form; the `json` and `text` formats are selected case-insensitively; any
other format is an unknown-output-format error.  The external JSON
marshaller (`getOutputJSON`) and the `%v` text rendering are abstracted as
function parameters. -/
def getOutput (marshalJSON : Value → Except String String)
    (sprintf : Value → String) (result : Value) (format : String) :
    Except String String :=
  let f := toLowerGo format
  if f = "" then
    if isNil result then Except.ok ""
    else
      match marshalJSON result with
      | Except.ok out => Except.ok out
      | Except.error _ => Except.ok (sprintf result)
  else if f = "json" then
    match marshalJSON result with
    | Except.ok out => Except.ok out
    | Except.error e => Except.error e
  else if f = "text" then Except.ok (sprintf result)
  else Except.error ("unknown output format: " ++ format)

/-- Lowercasing produces the empty string only from the empty string. -/
theorem toLowerGo_eq_empty_iff (s : String) : toLowerGo s = "" ↔ s = "" := by
  constructor
  · intro h
    have hd : s.data.map Char.toLower = ([] : List Char) := congrArg String.data h
    have hnil : s.data = [] := by simpa using hd
    exact congrArg String.mk hnil
  · intro h
    rw [h]
    rfl

/-- **C9**: with an unspecified output format, `getOutput` is total and
never returns an error — the empty string for the Nil singleton, the JSON
form when marshalling succeeds, the plain text form otherwise — while any
non-empty format other than case-insensitive `json`/`text` yields the
unknown-output-format error. -/
theorem C9_getOutput_default_total :
    ∀ (mj : Value → Except String String) (sp : Value → String) (r : Value),
      (∃ out, getOutput mj sp r "" = Except.ok out) ∧
      (isNil r = true → getOutput mj sp r "" = Except.ok "") ∧
      (∀ j, isNil r = false → mj r = Except.ok j →
        getOutput mj sp r "" = Except.ok j) ∧
      (∀ e, isNil r = false → mj r = Except.error e →
        getOutput mj sp r "" = Except.ok (sp r)) ∧
      (∀ fmt, fmt ≠ "" → toLowerGo fmt ≠ "json" → toLowerGo fmt ≠ "text" →
        getOutput mj sp r fmt =
          Except.error ("unknown output format: " ++ fmt)) := by
  intro mj sp r
  have hnil : toLowerGo "" = "" := rfl
  refine ⟨?_, ?_, ?_, ?_, ?_⟩
  · by_cases hn : isNil r
    · exact ⟨"", by simp [getOutput, hnil, hn]⟩
    · cases hm : mj r with
      | ok out => exact ⟨out, by simp [getOutput, hnil, hn, hm]⟩
      | error e => exact ⟨sp r, by simp [getOutput, hnil, hn, hm]⟩
  · intro hn
    simp [getOutput, hnil, hn]
  · intro j hn hm
    simp [getOutput, hnil, hn, hm]
  · intro e hn hm
    simp [getOutput, hnil, hn, hm]
  · intro fmt h0 hj ht
    have h0' : toLowerGo fmt ≠ "" :=
      fun hc => h0 ((toLowerGo_eq_empty_iff fmt).mp hc)
    simp [getOutput, h0', hj, ht]

/-- Witness for C9 at concrete inputs: a failing marshaller with an unknown
format produces the unknown-output-format error. -/
theorem C9_witness :
    getOutput (fun _ => Except.error "no json") (fun _ => "txt")
      (Value.int 1) "yaml" = Except.error ("unknown output format: " ++ "yaml") :=
  (C9_getOutput_default_total (fun _ => Except.error "no json")
    (fun _ => "txt") (Value.int 1)).2.2.2.2 "yaml" (by decide) (by decide)
    (by decide)

/-- **C8**: `mountFromSpec` rejects malformed mount specifications — any
comma-separated part without `=`, or a missing/empty `type`, `src` or `dst`
key, or an unsupported type all produce an error; the unsupported-type error
message reports the `src` value rather than the type value. -/
theorem C8_mountFromSpec_rejects_malformed :
    (∀ spec : String, (∃ part ∈ splitOnChar ',' spec, '=' ∉ part.data) →
      ∃ e, mountFromSpec spec = Except.error e) ∧
    (∀ spec key, (key = "type" ∨ key = "src" ∨ key = "dst") →
      ∀ items, parseItems spec (splitOnChar ',' spec) [] = Except.ok items →
      (items.lookup key = none ∨ items.lookup key = some "") →
      ∃ e, mountFromSpec spec = Except.error e) ∧
    (∀ spec items typ src dst,
      parseItems spec (splitOnChar ',' spec) [] = Except.ok items →
      items.lookup "type" = some typ → typ ≠ "" → typ ≠ "s3" →
      items.lookup "src" = some src → src ≠ "" →
      items.lookup "dst" = some dst → dst ≠ "" →
      mountFromSpec spec = Except.error ("unsupported source: " ++ src)) := by
  refine ⟨?_, ?_, ?_⟩
  · intro spec hbad
    refine ⟨"invalid mount spec: " ++ spec ++ " (expected k=v format)", ?_⟩
    unfold mountFromSpec
    rw [parseItems_error_of_bad_part spec _ [] hbad]
  · intro spec key hkey items hparse hmiss
    cases hm : mountFromSpec spec with
    | error e => exact ⟨e, rfl⟩
    | ok v =>
        obtain ⟨fs, d⟩ := v
        obtain ⟨items2, hp2, hty, hsrc, hsne, hdst, hdne⟩ :=
          mountFromSpec_ok_inversion spec fs d hm
        rw [hparse] at hp2
        injection hp2 with hp2
        subst hp2
        rcases hkey with rfl | rfl | rfl <;> rcases hmiss with h1 | h1 <;>
          simp_all
  · intro spec items typ src dst hparse htyp htne hts hsrc hsne hdst hdne
    unfold mountFromSpec
    rw [hparse]
    simp [htyp, hsrc, hdst, htne, hsne, hdne, hts]

/-- Witness for C8 at a concrete input: a well-formed spec with an
unsupported type `gcs` is rejected with an error naming the src value. -/
theorem C8_witness :
    mountFromSpec "type=gcs,src=b,dst=/x" =
      Except.error ("unsupported source: " ++ "b") :=
  C8_mountFromSpec_rejects_malformed.2.2 "type=gcs,src=b,dst=/x"
    [("dst", "/x"), ("src", "b"), ("type", "gcs")] "gcs" "b" "/x"
    rfl rfl (by decide) (by decide) rfl (by decide) rfl (by decide)

end cli

namespace repl

/-- The mutable line-editing state of `Run` (repl/repl.go): the history
list, the history cursor, the line being accumulated and the column.  Go
`int` variables are modelled as `Int`; Go byte indices into the line are
modelled as character indices. -/
structure ReplState where
  history : List String
  historyIndex : Int
  accumulate : String
  column : Int

/-- The key events handled by the `keyboard.Listen` callback.  `runes`
carries the text inserted by a rune, space or tab key; `ctrlStop` stands
for CtrlC/CtrlD, which stop the loop without touching the state. -/
inductive Key where
  | enter
  | runes (s : String)
  | backspace
  | delete
  | up
  | down
  | left
  | right
  | ctrlA
  | ctrlE
  | ctrlStop

/-- Go slicing `s[:n]` on the accumulated line. -/
def strTake (s : String) (n : Int) : String := String.mk (s.data.take n.toNat)

/-- Go slicing `s[n:]` on the accumulated line. -/
def strDrop (s : String) (n : Int) : String := String.mk (s.data.drop n.toNat)

/-- One step of the `keyboard.Listen` callback from `Run`: the state
mutations of each `switch key.Code` branch (printing elided). -/
def step (k : Key) (st : ReplState) : ReplState :=
  match k with
  | .enter =>
      let history2 := st.history ++ [st.accumulate]
      { history := history2, historyIndex := (history2.length : Int),
        accumulate := "", column := 0 }
  | .runes ks =>
      if st.column < (st.accumulate.length : Int) then
        { st with
          accumulate :=
            strTake st.accumulate st.column ++ ks ++
              strDrop st.accumulate st.column,
          column := st.column + (ks.length : Int) }
      else
        { st with
          accumulate := st.accumulate ++ ks,
          column := st.column + (ks.length : Int) }
  | .backspace =>
      if 0 < (st.accumulate.length : Int) then
        let st2 :=
          if st.column < (st.accumulate.length : Int) then
            if 0 < st.column then
              { st with
                accumulate :=
                  strTake st.accumulate (st.column - 1) ++
                    strDrop st.accumulate st.column }
            else st
          else
            { st with
              accumulate :=
                strTake st.accumulate ((st.accumulate.length : Int) - 1) }
        if 0 < st2.column then { st2 with column := st2.column - 1 } else st2
      else st
  | .delete =>
      if 0 < (st.accumulate.length : Int) then
        if st.column < (st.accumulate.length : Int) then
          if 0 < (st.accumulate.length : Int) - (st.column + 1) then
            { st with
              accumulate :=
                strTake st.accumulate st.column ++
                  strDrop st.accumulate (st.column + 1) }
          else { st with accumulate := strTake st.accumulate st.column }
        else st
      else st
  | .up =>
      let st2 :=
        if 0 < st.historyIndex then
          { st with historyIndex := st.historyIndex - 1 }
        else st
      if st2.historyIndex < (st2.history.length : Int) then
        let acc := st2.history.getD st2.historyIndex.toNat ""
        { st2 with accumulate := acc, column := (acc.length : Int) }
      else st2
  | .down =>
      let st2 :=
        if st.historyIndex < (st.history.length : Int) - 1 then
          { st with historyIndex := st.historyIndex + 1 }
        else st
      if st2.historyIndex < (st2.history.length : Int) then
        let acc := st2.history.getD st2.historyIndex.toNat ""
        { st2 with accumulate := acc, column := (acc.length : Int) }
      else { st2 with column := 0, accumulate := "" }
  | .left => if 0 < st.column then { st with column := st.column - 1 } else st
  | .right =>
      if st.column < (st.accumulate.length : Int) then
        { st with column := st.column + 1 }
      else st
  | .ctrlA => { st with column := 0 }
  | .ctrlE => { st with column := (st.accumulate.length : Int) }
  | .ctrlStop => st

/-- Processing a whole sequence of key events. -/
def run (keys : List Key) (st : ReplState) : ReplState :=
  keys.foldl (fun s k => step k s) st

/-- The initial state of `Run` when no history file could be read. -/
def initState : ReplState := ⟨[], 0, "", 0⟩

/-- The initial state of `Run` after reading a history file: the history is
the newline-split file contents and the cursor points at its last entry. -/
def initWithHistory (data : String) : ReplState :=
  let h := cli.splitOnChar (Char.ofNat 10) data
  ⟨h, (h.length : Int) - 1, "", 0⟩

/-- The history-cursor invariant of the REPL loop. -/
def Inv (st : ReplState) : Prop :=
  0 ≤ st.historyIndex ∧ st.historyIndex ≤ (st.history.length : Int)

/-- `splitOnChar.go` never yields the empty list, so a freshly read history
is never empty. -/
theorem splitOnChar_go_ne_nil (sep : Char) :
    ∀ (l acc : List Char), cli.splitOnChar.go sep l acc ≠ [] := by
  intro l
  induction l with
  | nil =>
      intro acc
      simp [cli.splitOnChar.go]
  | cons x xs ih =>
      intro acc
      by_cases hx : x = sep <;> simp [cli.splitOnChar.go, hx, ih]

/-- Every key-event branch preserves the history-cursor invariant. -/
theorem step_preserves_Inv (k : Key) (st : ReplState) (h : Inv st) :
    Inv (step k st) := by
  obtain ⟨h0, h1⟩ := h
  cases k <;> simp only [step, Inv] <;> (try split_ifs) <;>
    first
      | exact ⟨h0, h1⟩
      | (constructor <;> (simp only []; omega))
      | (simp only [List.length_append, List.length_cons, List.length_nil]
         constructor <;> omega)

/-- Processing any key sequence preserves the history-cursor invariant. -/
theorem run_preserves_Inv (keys : List Key) (st : ReplState) (h : Inv st) :
    Inv (run keys st) := by
  induction keys generalizing st with
  | nil => exact h
  | cons k rest ih => exact ih (step k st) (step_preserves_Inv k st h)

/-- **C10**: the REPL's history cursor stays in bounds — the invariant
`0 ≤ historyIndex ≤ len(history)` holds initially (with or without a
history file) and after any sequence of key events, and whenever the
source's guard `historyIndex < len(history)` holds (the condition under
which `history[historyIndex]` is read on Up and Down), the access is
within range. -/
theorem C10_history_cursor_in_bounds :
    Inv initState ∧
    (∀ data, Inv (initWithHistory data)) ∧
    (∀ st k, Inv st → Inv (step k st)) ∧
    (∀ keys st, Inv st → Inv (run keys st)) ∧
    (∀ st, Inv st → st.historyIndex < (st.history.length : Int) →
      0 ≤ st.historyIndex ∧ st.historyIndex.toNat < st.history.length) := by
  refine ⟨by simp [Inv, initState], ?_,
    fun st k h => step_preserves_Inv k st h,
    fun keys st h => run_preserves_Inv keys st h, ?_⟩
  · intro data
    have hne : cli.splitOnChar (Char.ofNat 10) data ≠ [] :=
      splitOnChar_go_ne_nil (Char.ofNat 10) data.data []
    have hlen : 0 < (cli.splitOnChar (Char.ofNat 10) data).length :=
      List.length_pos.mpr hne
    simp only [initWithHistory, Inv]
    constructor <;> omega
  · intro st h hlt
    obtain ⟨h0, h1⟩ := h
    exact ⟨h0, by omega⟩

/-- Witness for C10 at a concrete input: a short key sequence from the
empty initial state keeps the cursor in bounds. -/
theorem C10_witness :
    Inv (run [Key.up, Key.enter, Key.down] initState) :=
  C10_history_cursor_in_bounds.2.2.2.1 [Key.up, Key.enter, Key.down]
    initState (by simp [Inv, initState])

/-- Modelled from the spec: top-level expressions of the AST produced by
the external parser (spec §2, §6), restricted to what the claim's scenario
needs: integer literals, global variables and addition. -/
inductive Expr where
  | lit (n : Int)
  | var (name : String)
  | add (a b : Expr)

/-- Modelled from the spec: top-level statements — a global definition
`x := e` or a bare expression statement. -/
inductive Stmt where
  | assign (name : String) (e : Expr)
  | exprStmt (e : Expr)

/-- Modelled from the spec (§4.6): the bytecode emitted by the compiler
session for the modelled statement forms. -/
inductive Instr where
  | pushConst (n : Int)
  | storeGlobal (slot : Nat)
  | loadGlobal (slot : Nat)
  | binAdd

/-- Modelled from the spec (§4.6): the incremental compiler session holds
an append-only main instruction stream plus a symbol table (slot `i` is
named by `symbols[i]`). -/
structure Compiler where
  mainInstructions : List Instr
  symbols : List String

/-- `MainInstructions()` exposes the session's current instruction
stream; its length is the offset handed to the next compile pass. -/
def MainInstructions (c : Compiler) : List Instr := c.mainInstructions

/-- Resolve a name to its global slot in the symbol table. -/
def findSlot (symbols : List String) (name : String) : Option Nat :=
  match symbols with
  | [] => none
  | s :: rest =>
      if s = name then some 0 else (findSlot rest name).map (· + 1)

/-- Modelled from the spec: expression compilation against the session's
symbol table; an unresolved name is a compile error. -/
def compileExpr (symbols : List String) : Expr → Option (List Instr)
  | .lit n => some [Instr.pushConst n]
  | .var x => (findSlot symbols x).map (fun i => [Instr.loadGlobal i])
  | .add a b => do
      let ia ← compileExpr symbols a
      let ib ← compileExpr symbols b
      pure (ia ++ ib ++ [Instr.binAdd])

/-- Modelled from the spec: statement compilation — an assignment stores
into the name's slot, defining a fresh slot for a new name; an expression
statement leaves its value on the stack. -/
def compileStmt (symbols : List String) :
    Stmt → Option (List Instr × List String)
  | .assign x e => do
      let ie ← compileExpr symbols e
      match findSlot symbols x with
      | some i => pure (ie ++ [Instr.storeGlobal i], symbols)
      | none => pure (ie ++ [Instr.storeGlobal symbols.length], symbols ++ [x])
  | .exprStmt e => do
      let ie ← compileExpr symbols e
      pure (ie, symbols)

/-- Compile a list of top-level statements in order, threading the symbol
table. -/
def compileProg (symbols : List String) :
    List Stmt → Option (List Instr × List String)
  | [] => some ([], symbols)
  | s :: rest => do
      let (i1, sy1) ← compileStmt symbols s
      let (i2, sy2) ← compileProg sy1 rest
      pure (i1 ++ i2, sy2)

/-- Modelled from the spec (§4.5): the VM's execution state — the operand
stack and the persistent global store. -/
structure VMState where
  stack : List Int
  globals : Nat → Option Int

/-- One instruction of the modelled VM; stack underflow or a read of an
unset global is a failure. -/
def execInstr (s : VMState) : Instr → Option VMState
  | .pushConst n => some { s with stack := n :: s.stack }
  | .storeGlobal i =>
      match s.stack with
      | v :: rest =>
          some ⟨rest, fun j => if j = i then some v else s.globals j⟩
      | [] => none
  | .loadGlobal i =>
      (s.globals i).map fun v => { s with stack := v :: s.stack }
  | .binAdd =>
      match s.stack with
      | b :: a :: rest => some { s with stack := (a + b) :: rest }
      | _ => none

/-- Run a straight-line instruction sequence. -/
def runInstrs (s : VMState) (instrs : List Instr) : Option VMState :=
  instrs.foldlM execInstr s

/-- An incremental REPL session: the compiler plus the VM's persistent
global store. -/
structure Session where
  compiler : Compiler
  globals : Nat → Option Int

/-- `execute` from repl/repl.go, with `risor.Eval` modelled from the spec
(§4.6, §6): the instruction offset is computed as the current length of the
compiler's `MainInstructions` at the moment of the call and passed as
exactly the offset at which the new statements are appended; the appended
instructions are then executed from that offset over the persistent
globals.  The printed result is the value an expression statement leaves on
the stack, if any. -/
def execute (code : List Stmt) (s : Session) :
    Option (Option Int × Session) := do
  let offset := (MainInstructions s.compiler).length
  let (instrs, syms) ← compileProg s.compiler.symbols code
  let c2 : Compiler := ⟨s.compiler.mainInstructions ++ instrs, syms⟩
  let vmEnd ← runInstrs ⟨[], s.globals⟩ (c2.mainInstructions.drop offset)
  pure (vmEnd.stack.head?, ⟨c2, vmEnd.globals⟩)

/-- A fresh session: no instructions, no symbols, no globals. -/
def emptySession : Session := ⟨⟨[], []⟩, fun _ => none⟩

/-- **C2**: incremental compilation at the `MainInstructions` offset —
every successful `execute` call leaves the previously emitted instructions
in place as a prefix (the offset being their length at the moment of the
call), and the concrete scenario holds: compiling `x := 1` and then, at the
resulting offset, compiling `x + 1` and executing both in sequence yields
2, the second pass linking `x` against the binding defined by the first. -/
theorem C2_incremental_compile_offset :
    (∀ code s r s2, execute code s = some (r, s2) →
      (MainInstructions s2.compiler).take
          (MainInstructions s.compiler).length =
        MainInstructions s.compiler) ∧
    (∃ r1 s1 s2,
      execute [Stmt.assign "x" (Expr.lit 1)] emptySession = some (r1, s1) ∧
      (MainInstructions s1.compiler).length = 2 ∧
      execute [Stmt.exprStmt (Expr.add (Expr.var "x") (Expr.lit 1))] s1 =
        some (some 2, s2)) := by
  constructor
  · intro code s r s2 h
    unfold execute at h
    cases hcp : compileProg s.compiler.symbols code with
    | none => simp [hcp] at h
    | some p =>
        obtain ⟨instrs, syms⟩ := p
        cases hrun : runInstrs ⟨[], s.globals⟩
            ((s.compiler.mainInstructions ++ instrs).drop
              (MainInstructions s.compiler).length) with
        | none => simp [hcp, hrun] at h
        | some vmEnd =>
            simp [hcp, hrun] at h
            obtain ⟨hr, hs2⟩ := h
            subst hs2
            simp [MainInstructions, List.take_left]
  · exact ⟨_, _, _, rfl, rfl, rfl⟩

/-- Witness for C2's prefix-preservation part at a concrete input: the
session produced by compiling `x := 1` from the empty session keeps the
(empty) previous instruction stream as its prefix. -/
theorem C2_witness :
    (MainInstructions
        (⟨⟨[Instr.pushConst 1, Instr.storeGlobal 0], ["x"]⟩,
          fun j => if j = 0 then some 1 else none⟩ : Session).compiler).take
        (MainInstructions emptySession.compiler).length =
      MainInstructions emptySession.compiler :=
  C2_incremental_compile_offset.1 [Stmt.assign "x" (Expr.lit 1)] emptySession
    none
    ⟨⟨[Instr.pushConst 1, Instr.storeGlobal 0], ["x"]⟩,
      fun j => if j = 0 then some 1 else none⟩ rfl

end repl

end Risor
